import Mathlib

/- Verification of the LightingEvents LED animation core (LightingEvents.h).

   Modelling choices:
   * The pixel sink (an Adafruit_NeoPixel strip) is modelled by a trace of
     sink operations: a `setPixelColor` write, a `flush` (the strip's
     show() call) and a `delay` (the Arduino delay(ms) busy wait).
     Each Draw()/End() call is a function returning the trace of sink
     operations it performs; `applyOps` gives the resulting pixel buffer.
   * Elapsed-time samples returned by TimeElapsedTotal() are modelled as
     exact rationals; the float arithmetic of the source is carried out
     exactly over the rationals.  Where the source converts a float to an
     integer (an implicit C++ truncating conversion) the model takes the
     floor, which agrees with truncation on the non-negative values that
     occur while an event is active.
   * The externally supplied configuration constants NUMBER_USED_PIXELS
     and NUMBER_TURN_PIXELS are natural-number parameters N and M.
   * A method that samples TimeElapsedTotal() several times in one call
     (BrakingEvent::Draw) receives one rational parameter per sample;
     the clock being monotone, the samples are non-decreasing. -/

/-- Named color constants supplied by the configuration (COLOR_BLACK,
COLOR_WHITE, ...).  The claims depend only on which named color is
written, never on its numeric 32-bit value. -/
inductive Color where
  | COLOR_BLACK
  | COLOR_WHITE
  | COLOR_RED
  | COLOR_DARK_RED
  | COLOR_BLUE
  | COLOR_AMBER
deriving DecidableEq

/-- One operation performed on the pixel sink.  `flush` models
Adafruit_NeoPixel::show(); `delay` models the Arduino delay(ms). -/
inductive SinkOp where
  | setPixelColor (i : ℕ) (c : Color)
  | flush
  | delay (ms : ℕ)
deriving DecidableEq

/-- Effect of a single sink operation on the pixel buffer. -/
def applyOp (buf : ℕ → Color) : SinkOp → (ℕ → Color)
  | SinkOp.setPixelColor i c => fun j => if j = i then c else buf j
  | SinkOp.flush => buf
  | SinkOp.delay _ => buf

/-- Pixel buffer after a trace of sink operations. -/
def applyOps (buf : ℕ → Color) : List SinkOp → (ℕ → Color)
  | [] => buf
  | op :: rest => applyOps (applyOp buf op) rest

/-- Whether a sink operation is a flush. -/
def SinkOp.isFlush : SinkOp → Bool
  | SinkOp.flush => true
  | _ => false

/-- Whether a sink operation is a blocking delay. -/
def SinkOp.isDelay : SinkOp → Bool
  | SinkOp.delay _ => true
  | _ => false

/-- Number of flushes (show() calls) in a trace. -/
def flushCount (ops : List SinkOp) : ℕ := (ops.filter SinkOp.isFlush).length

/-- Number of blocking delay() calls in a trace. -/
def delayCount (ops : List SinkOp) : ℕ := (ops.filter SinkOp.isDelay).length

/-- Buffer contents at the moment of each flush, in trace order. -/
def buffersAtFlushes (buf : ℕ → Color) : List SinkOp → List (ℕ → Color)
  | [] => []
  | SinkOp.flush :: rest => buf :: buffersAtFlushes buf rest
  | SinkOp.setPixelColor i c :: rest =>
      buffersAtFlushes (applyOp buf (SinkOp.setPixelColor i c)) rest
  | SinkOp.delay _ :: rest => buffersAtFlushes buf rest

/-- Exact model of C fmod on the values that occur here (non-negative
numerator, positive modulus). -/
def fmodQ (x y : ℚ) : ℚ := x - y * ⌊x / y⌋

/-- State held by the LightingEvent base class: the millis() timestamp of
the last Begin() and the active flag. -/
structure LightingEventState where
  eventStart : ℕ
  active : Bool

namespace LightingEvent

/-- LightingEvent::End() : clears the active flag, writes COLOR_BLACK to
the NUMBER_USED_PIXELS usable pixels and shows the strip. -/
def End (s : LightingEventState) (N : ℕ) : LightingEventState × List SinkOp :=
  ({ s with active := false },
    ((List.range N).map (fun i => SinkOp.setPixelColor i Color.COLOR_BLACK)) ++ [SinkOp.flush])

end LightingEvent

namespace BackupEvent

def BLOOM_TIME : ℚ := 1/4

/-- Local fPercentComplete of BackupEvent::Draw. -/
def fPercentComplete (t : ℚ) : ℚ := min (t / BLOOM_TIME) 1

/-- Local cLEDs of BackupEvent::Draw (float truncated to int, non-negative
for t at or above 0). -/
def cLEDs (t : ℚ) (N : ℕ) : ℕ := (⌊(N : ℚ) * fPercentComplete t⌋).toNat

/-- Local iFirst of BackupEvent::Draw. -/
def iFirst (t : ℚ) (N : ℕ) : ℕ := N / 2 - cLEDs t N / 2

/-- Local iLast of BackupEvent::Draw. -/
def iLast (t : ℚ) (N : ℕ) : ℕ := N / 2 + cLEDs t N / 2

/-- BackupEvent::Draw for one call: `active` is GetActive(), `t` the
TimeElapsedTotal() sample, `N` is NUMBER_USED_PIXELS. -/
def Draw (active : Bool) (t : ℚ) (N : ℕ) : List SinkOp :=
  if active = false then []
  else
    ((List.range N).map (fun i =>
      if i < iFirst t N ∨ i > iLast t N then SinkOp.setPixelColor i Color.COLOR_BLACK
      else SinkOp.setPixelColor i Color.COLOR_WHITE)) ++ [SinkOp.flush]

end BackupEvent

namespace BrakingEvent

def BRAKE_STROBE_DURATION : ℚ := 1/2
def BLOOM_START_SIZE : ℚ := 1/10
def BLOOM_TIME : ℚ := 1/2

/-- Local pctComplete of BrakingEvent::Draw at elapsed time t. -/
def pctComplete (t : ℚ) : ℚ := min 1 (t / BLOOM_TIME + BLOOM_START_SIZE)

/-- Local unusedEachEnd of BrakingEvent::Draw at elapsed time t. -/
def unusedEachEnd (t : ℚ) (N : ℕ) : ℚ := (1 - pctComplete t) * N / 2

/-- Indices visited by the source loop
`for (uint16_t i = unusedEachEnd; i < NUMBER_USED_PIXELS - unusedEachEnd; i++)`:
the float start value is truncated to an integer and the integer loop index
is compared with the exact float bound, so the loop covers the integers i
with floor(unusedEachEnd) at most i and i strictly below N - unusedEachEnd. -/
def litRange (t : ℚ) (N : ℕ) : List ℕ :=
  List.range' (⌊unusedEachEnd t N⌋.toNat)
    ((⌈(N : ℚ) - unusedEachEnd t N⌉.toNat) - ⌊unusedEachEnd t N⌋.toNat)

/-- BrakingEvent::Draw for one call.  The method samples
TimeElapsedTotal() three times (once for the phase test on entry, once
before each of the two strobe renders); t0, t1, t2 are those samples in
call order.  `N` is NUMBER_USED_PIXELS. -/
def Draw (active : Bool) (t0 t1 t2 : ℚ) (N : ℕ) : List SinkOp :=
  if active = false then []
  else if t0 < BRAKE_STROBE_DURATION then
    ((litRange t1 N).map (fun i => SinkOp.setPixelColor i Color.COLOR_RED))
      ++ [SinkOp.flush, SinkOp.delay 30]
      ++ ((litRange t2 N).map (fun i => SinkOp.setPixelColor i Color.COLOR_DARK_RED))
      ++ [SinkOp.flush, SinkOp.delay 20]
  else
    ((List.range N).map (fun i => SinkOp.setPixelColor i Color.COLOR_RED)) ++ [SinkOp.flush]

end BrakingEvent

namespace SignalEvent

inductive SIGNAL_STYLE where
  | INVALID
  | LEFT_TURN
  | RIGHT_TURN
  | HAZARD
deriving DecidableEq

def SequentialBloomStart : ℚ := 0
def SequentialBloomTime : ℚ := 1/2
def SequentialHoldStart : ℚ := SequentialBloomStart + SequentialBloomTime
def SequentialHoldTime : ℚ := 1/4
def SequentialFadeStart : ℚ := SequentialHoldStart + SequentialHoldTime
def SequentialFadeTime : ℚ := 1/8
def SequentialOffStart : ℚ := SequentialFadeStart + SequentialFadeTime
def SequentialOffTime : ℚ := 1/4
def SequentialCycleTime : ℚ := SequentialOffStart + SequentialOffTime

/-- SignalEvent::SetTurnLED: writes pixel i on the start end for LEFT_TURN
and HAZARD, and the mirrored pixel N - 1 - i for RIGHT_TURN and HAZARD. -/
def SetTurnLED (style : SIGNAL_STYLE) (N i : ℕ) (color : Color) : List SinkOp :=
  (if style = SIGNAL_STYLE.LEFT_TURN ∨ style = SIGNAL_STYLE.HAZARD then
    [SinkOp.setPixelColor i color]
  else [])
  ++ (if style = SIGNAL_STYLE.RIGHT_TURN ∨ style = SIGNAL_STYLE.HAZARD then
    [SinkOp.setPixelColor (N - 1 - i) color]
  else [])

/-- Local cPixelsLit of the fade branch of SignalEvent::Draw (float
truncated to int; non-negative inside the branch). -/
def fadePixelsLit (t : ℚ) (M : ℕ) : ℕ :=
  (⌊(M : ℚ) - (M : ℚ) *
    ((fmodQ t SequentialCycleTime - SequentialFadeStart) / SequentialFadeTime)⌋).toNat

/-- Local cPixelsLit of the bloom branch of SignalEvent::Draw (float
truncated to int; non-negative inside the branch). -/
def bloomPixelsLit (t : ℚ) (M : ℕ) : ℕ :=
  (⌊(M : ℚ) * (fmodQ t SequentialCycleTime / SequentialBloomTime)⌋).toNat

/-- Color that SignalEvent::Draw writes for signal index i at elapsed time
t; the branch structure mirrors the four phase branches of Draw (the
branch condition does not depend on i, so per-index evaluation agrees
with the source's branch-then-loop structure). -/
def frameColor (t : ℚ) (M i : ℕ) : Color :=
  if fmodQ t SequentialCycleTime > SequentialOffStart then Color.COLOR_BLACK
  else if fmodQ t SequentialCycleTime > SequentialFadeStart then
    if i < fadePixelsLit t M then Color.COLOR_AMBER else Color.COLOR_BLACK
  else if fmodQ t SequentialCycleTime > SequentialHoldStart then Color.COLOR_AMBER
  else
    if i ≥ M - bloomPixelsLit t M then Color.COLOR_AMBER else Color.COLOR_BLACK

/-- SignalEvent::Draw for one call: `t` is the TimeElapsedTotal() sample,
`N` is NUMBER_USED_PIXELS, `M` is NUMBER_TURN_PIXELS.  The bloom branch
assertion is proved to hold (signal_bloom_assert_never_fails below), so
the model needs no abort case for it. -/
def Draw (style : SIGNAL_STYLE) (active : Bool) (t : ℚ) (N M : ℕ) : List SinkOp :=
  if active = false then []
  else
    (if fmodQ t SequentialCycleTime > SequentialOffStart then
      ((List.range M).map (fun i => SetTurnLED style N i Color.COLOR_BLACK)).flatten
    else if fmodQ t SequentialCycleTime > SequentialFadeStart then
      ((List.range M).map (fun i =>
        SetTurnLED style N i
          (if i < fadePixelsLit t M then Color.COLOR_AMBER else Color.COLOR_BLACK))).flatten
    else if fmodQ t SequentialCycleTime > SequentialHoldStart then
      ((List.range M).map (fun i => SetTurnLED style N i Color.COLOR_AMBER)).flatten
    else
      ((List.range M).map (fun i =>
        SetTurnLED style N i
          (if i ≥ M - bloomPixelsLit t M then Color.COLOR_AMBER else Color.COLOR_BLACK))).flatten)
    ++ [SinkOp.flush]

end SignalEvent

/-- One row of the police light bar pattern table: eight section colors
and a hold duration in milliseconds. -/
structure PoliceLightBarState where
  sectionColor : List Color
  duration : ℕ

namespace PoliceLightBar

/-- Static table PoliceLightBar::_PoliceBarStates1 (11 rows). -/
def PoliceBarStates1 : List PoliceLightBarState :=
  [ ⟨[Color.COLOR_BLUE,  Color.COLOR_BLUE,  Color.COLOR_RED,   Color.COLOR_RED,
      Color.COLOR_BLUE,  Color.COLOR_BLUE,  Color.COLOR_RED,   Color.COLOR_RED], 200⟩,
    ⟨[Color.COLOR_RED,   Color.COLOR_RED,   Color.COLOR_BLUE,  Color.COLOR_BLUE,
      Color.COLOR_RED,   Color.COLOR_RED,   Color.COLOR_BLUE,  Color.COLOR_BLUE], 200⟩,
    ⟨[Color.COLOR_WHITE, Color.COLOR_BLUE,  Color.COLOR_RED,   Color.COLOR_RED,
      Color.COLOR_BLUE,  Color.COLOR_BLUE,  Color.COLOR_RED,   Color.COLOR_RED], 20⟩,
    ⟨[Color.COLOR_BLUE,  Color.COLOR_BLUE,  Color.COLOR_RED,   Color.COLOR_RED,
      Color.COLOR_BLUE,  Color.COLOR_BLUE,  Color.COLOR_RED,   Color.COLOR_WHITE], 20⟩,
    ⟨[Color.COLOR_BLUE,  Color.COLOR_WHITE, Color.COLOR_RED,   Color.COLOR_RED,
      Color.COLOR_BLUE,  Color.COLOR_BLUE,  Color.COLOR_RED,   Color.COLOR_RED], 20⟩,
    ⟨[Color.COLOR_BLUE,  Color.COLOR_BLUE,  Color.COLOR_RED,   Color.COLOR_RED,
      Color.COLOR_BLUE,  Color.COLOR_BLUE,  Color.COLOR_WHITE, Color.COLOR_RED], 20⟩,
    ⟨[Color.COLOR_BLUE,  Color.COLOR_BLUE,  Color.COLOR_WHITE, Color.COLOR_RED,
      Color.COLOR_BLUE,  Color.COLOR_BLUE,  Color.COLOR_RED,   Color.COLOR_RED], 20⟩,
    ⟨[Color.COLOR_BLUE,  Color.COLOR_BLUE,  Color.COLOR_RED,   Color.COLOR_RED,
      Color.COLOR_BLUE,  Color.COLOR_WHITE, Color.COLOR_RED,   Color.COLOR_RED], 20⟩,
    ⟨[Color.COLOR_BLUE,  Color.COLOR_BLUE,  Color.COLOR_RED,   Color.COLOR_WHITE,
      Color.COLOR_BLUE,  Color.COLOR_BLUE,  Color.COLOR_RED,   Color.COLOR_RED], 20⟩,
    ⟨[Color.COLOR_BLUE,  Color.COLOR_BLUE,  Color.COLOR_RED,   Color.COLOR_RED,
      Color.COLOR_WHITE, Color.COLOR_BLUE,  Color.COLOR_RED,   Color.COLOR_RED], 20⟩,
    ⟨[Color.COLOR_RED,   Color.COLOR_RED,   Color.COLOR_BLUE,  Color.COLOR_BLUE,
      Color.COLOR_RED,   Color.COLOR_RED,   Color.COLOR_BLUE,  Color.COLOR_BLUE], 200⟩ ]

/-- Local iSection of PoliceLightBar::Draw: pixel i's section index,
i / sectionSize with sectionSize = NUMBER_USED_PIXELS / 8.  The source
applies no clamping to this value. -/
def iSection (N i : ℕ) : ℕ := i / (N / 8)

/-- Sink operations of one row of the table: write every usable pixel with
the row's color for that pixel's section index, show, then hold for the
row's duration.  The getD default is never reached when iSection stays
below 8 (the in-bounds case of the C++ array read). -/
def rowFrame (row : PoliceLightBarState) (N : ℕ) : List SinkOp :=
  ((List.range N).map (fun i =>
    SinkOp.setPixelColor i (row.sectionColor.getD (iSection N i) Color.COLOR_BLACK)))
  ++ [SinkOp.flush, SinkOp.delay row.duration]

/-- PoliceLightBar::Draw for one call.  The method never reads the clock:
the parameter t records the elapsed time at the call only to state that
the trace does not depend on it.  `N` is NUMBER_USED_PIXELS. -/
def Draw (active : Bool) (t : ℚ) (N : ℕ) : List SinkOp :=
  if active = false then []
  else (PoliceBarStates1.map (fun row => rowFrame row N)).flatten

end PoliceLightBar

/- Helper lemmas about the sink-trace semantics. -/

theorem applyOps_append (a : List SinkOp) :
    ∀ (b : List SinkOp) (buf : ℕ → Color),
      applyOps buf (a ++ b) = applyOps (applyOps buf a) b := by
  induction a with
  | nil => intro b buf; rfl
  | cons op rest ih => intro b buf; simp only [List.cons_append, applyOps]; exact ih b _

theorem flushCount_append (a b : List SinkOp) :
    flushCount (a ++ b) = flushCount a + flushCount b := by
  simp [flushCount, List.filter_append]

theorem delayCount_append (a b : List SinkOp) :
    delayCount (a ++ b) = delayCount a + delayCount b := by
  simp [delayCount, List.filter_append]

theorem filter_set_map_nil (p : SinkOp → Bool)
    (hp : ∀ i c, p (SinkOp.setPixelColor i c) = false) (l : List ℕ) (f : ℕ → Color) :
    (l.map (fun i => SinkOp.setPixelColor i (f i))).filter p = [] := by
  induction l with
  | nil => rfl
  | cons a l ih => simp [List.filter_cons, hp, ih]

theorem flushCount_map_set (l : List ℕ) (f : ℕ → Color) :
    flushCount (l.map (fun i => SinkOp.setPixelColor i (f i))) = 0 := by
  simp [flushCount, filter_set_map_nil SinkOp.isFlush (fun _ _ => rfl)]

theorem delayCount_map_set (l : List ℕ) (f : ℕ → Color) :
    delayCount (l.map (fun i => SinkOp.setPixelColor i (f i))) = 0 := by
  simp [delayCount, filter_set_map_nil SinkOp.isDelay (fun _ _ => rfl)]

theorem applyOps_rangeMap (f : ℕ → Color) (buf : ℕ → Color) (j : ℕ) (N : ℕ) :
    applyOps buf ((List.range N).map (fun i => SinkOp.setPixelColor i (f i))) j
      = if j < N then f j else buf j := by
  induction N with
  | zero => simp [applyOps]
  | succ N ih =>
    rw [List.range_succ, List.map_append, applyOps_append]
    simp only [List.map_cons, List.map_nil, applyOps, applyOp]
    rw [ih]
    by_cases hj : j = N
    · subst hj; simp
    · rw [if_neg hj]
      by_cases hlt : j < N
      · rw [if_pos hlt, if_pos (by omega)]
      · rw [if_neg hlt, if_neg (by omega)]

theorem applyOps_not_written (j : ℕ) :
    ∀ (ops : List SinkOp) (buf : ℕ → Color),
      (∀ c, SinkOp.setPixelColor j c ∉ ops) → applyOps buf ops j = buf j := by
  intro ops
  induction ops with
  | nil => intro buf _; rfl
  | cons op rest ih =>
    intro buf h
    have hrest : ∀ c, SinkOp.setPixelColor j c ∉ rest := by
      intro c hc
      exact h c (List.mem_cons_of_mem _ hc)
    cases op with
    | setPixelColor i c =>
      have hji : j ≠ i := by
        intro e
        exact h c (by rw [e]; exact List.mem_cons_self _ _)
      show applyOps (applyOp buf (SinkOp.setPixelColor i c)) rest j = buf j
      rw [ih _ hrest]
      simp [applyOp, hji]
    | flush =>
      show applyOps (applyOp buf SinkOp.flush) rest j = buf j
      exact ih _ hrest
    | delay m =>
      show applyOps (applyOp buf (SinkOp.delay m)) rest j = buf j
      exact ih _ hrest

theorem buffersAtFlushes_append (a : List SinkOp) :
    ∀ (b : List SinkOp) (buf : ℕ → Color),
      buffersAtFlushes buf (a ++ b)
        = buffersAtFlushes buf a ++ buffersAtFlushes (applyOps buf a) b := by
  induction a with
  | nil => intro b buf; rfl
  | cons op rest ih =>
    intro b buf
    cases op with
    | setPixelColor i c => exact ih b (applyOp buf (SinkOp.setPixelColor i c))
    | flush => exact congrArg (List.cons buf) (ih b buf)
    | delay m => exact ih b buf

theorem length_buffersAtFlushes :
    ∀ (ops : List SinkOp) (buf : ℕ → Color),
      (buffersAtFlushes buf ops).length = flushCount ops := by
  intro ops
  induction ops with
  | nil => intro buf; rfl
  | cons op rest ih =>
    intro buf
    cases op with
    | setPixelColor i c =>
      show (buffersAtFlushes (applyOp buf (SinkOp.setPixelColor i c)) rest).length
        = flushCount (SinkOp.setPixelColor i c :: rest)
      rw [ih]
      simp [flushCount, List.filter_cons, SinkOp.isFlush]
    | flush =>
      show (buf :: buffersAtFlushes buf rest).length = flushCount (SinkOp.flush :: rest)
      simp [flushCount, List.filter_cons, SinkOp.isFlush, ih buf]
    | delay m =>
      show (buffersAtFlushes buf rest).length = flushCount (SinkOp.delay m :: rest)
      rw [ih]
      simp [flushCount, List.filter_cons, SinkOp.isFlush]

theorem buffersAtFlushes_map_set (l : List ℕ) (f : ℕ → Color) (buf : ℕ → Color) :
    buffersAtFlushes buf (l.map (fun i => SinkOp.setPixelColor i (f i))) = [] := by
  rw [← List.length_eq_zero]
  rw [length_buffersAtFlushes]
  exact flushCount_map_set l f

/- Facts about the BackupEvent locals in the steady (fully bloomed) phase. -/

theorem backup_locals_steady (N : ℕ) (t : ℚ) (h : 1/4 ≤ t) :
    BackupEvent.cLEDs t N = N ∧ BackupEvent.iFirst t N = 0
      ∧ BackupEvent.iLast t N = N / 2 + N / 2 := by
  have hpct : BackupEvent.fPercentComplete t = 1 := by
    unfold BackupEvent.fPercentComplete BackupEvent.BLOOM_TIME
    have h4 : (1 : ℚ) ≤ t / (1/4) := by
      rw [le_div_iff (by norm_num : (0:ℚ) < 1/4)]
      linarith
    exact min_eq_right h4
  have hc : BackupEvent.cLEDs t N = N := by
    unfold BackupEvent.cLEDs
    rw [hpct, mul_one, Int.floor_natCast, Int.toNat_natCast]
  refine ⟨hc, ?_, ?_⟩
  · unfold BackupEvent.iFirst; rw [hc]; omega
  · unfold BackupEvent.iLast; rw [hc]

/-- C6: BackupEvent::Draw while active with elapsed time at least 0.25s
writes COLOR_WHITE to every usable pixel and flushes once, and every later
call (any elapsed time at least 0.25s) produces the identical trace, so
the fully white frame persists until End(). -/
theorem backup_steady_all_white (N : ℕ) (t : ℚ) (h : 1/4 ≤ t) :
    BackupEvent.Draw true t N
      = ((List.range N).map (fun i => SinkOp.setPixelColor i Color.COLOR_WHITE))
        ++ [SinkOp.flush] ∧
    flushCount (BackupEvent.Draw true t N) = 1 ∧
    (∀ buf : ℕ → Color, ∀ i, i < N →
      applyOps buf (BackupEvent.Draw true t N) i = Color.COLOR_WHITE) ∧
    (∀ t' : ℚ, 1/4 ≤ t' → BackupEvent.Draw true t' N = BackupEvent.Draw true t N) := by
  have key : ∀ s : ℚ, 1/4 ≤ s → BackupEvent.Draw true s N
      = ((List.range N).map (fun i => SinkOp.setPixelColor i Color.COLOR_WHITE))
        ++ [SinkOp.flush] := by
    intro s hs
    obtain ⟨_, hF, hL⟩ := backup_locals_steady N s hs
    unfold BackupEvent.Draw
    rw [if_neg (by simp)]
    congr 1
    apply List.map_congr_left
    intro i hi
    rw [List.mem_range] at hi
    rw [hF, hL, if_neg]
    rintro (h1 | h2)
    · omega
    · omega
  have htrace := key t h
  refine ⟨htrace, ?_, ?_, fun t' ht' => (key t' ht').trans htrace.symm⟩
  · rw [htrace, flushCount_append, flushCount_map_set]
    rfl
  · intro buf i hi
    rw [htrace, applyOps_append]
    show applyOps buf ((List.range N).map fun i => SinkOp.setPixelColor i Color.COLOR_WHITE) i
      = Color.COLOR_WHITE
    rw [applyOps_rangeMap (fun _ => Color.COLOR_WHITE) buf i N, if_pos hi]

/-- Witness for backup_steady_all_white at t = 1, N = 4. -/
theorem backup_steady_all_white_witness :
    flushCount (BackupEvent.Draw true 1 4) = 1 ∧
    applyOps (fun _ => Color.COLOR_BLACK) (BackupEvent.Draw true 1 4) 3
      = Color.COLOR_WHITE := by
  have h := backup_steady_all_white 4 1 (by norm_num)
  exact ⟨h.2.1, h.2.2.1 (fun _ => Color.COLOR_BLACK) 3 (by norm_num)⟩

/-- C1: For every event variant, Draw() called while GetActive() is false
performs zero sink writes: the trace of sink operations is empty (no
setPixelColor, no show), and the pixel buffer is unchanged. -/
theorem draw_inactive_no_sink_writes (t t0 t1 t2 : ℚ) (N M : ℕ)
    (style : SignalEvent.SIGNAL_STYLE) (buf : ℕ → Color) :
    BackupEvent.Draw false t N = [] ∧
    BrakingEvent.Draw false t0 t1 t2 N = [] ∧
    SignalEvent.Draw style false t N M = [] ∧
    PoliceLightBar.Draw false t N = [] ∧
    applyOps buf (BackupEvent.Draw false t N) = buf ∧
    applyOps buf (BrakingEvent.Draw false t0 t1 t2 N) = buf ∧
    applyOps buf (SignalEvent.Draw style false t N M) = buf ∧
    applyOps buf (PoliceLightBar.Draw false t N) = buf :=
  ⟨rfl, rfl, rfl, rfl, rfl, rfl, rfl, rfl⟩

/-- C7: End() sets the active flag to false, writes the blank color
COLOR_BLACK to every usable pixel and performs exactly one flush. -/
theorem end_deactivates_blanks_flushes_once (s : LightingEventState) (N : ℕ)
    (buf : ℕ → Color) :
    (LightingEvent.End s N).1.active = false ∧
    flushCount (LightingEvent.End s N).2 = 1 ∧
    (∀ i, i < N → applyOps buf (LightingEvent.End s N).2 i = Color.COLOR_BLACK) := by
  refine ⟨rfl, ?_, ?_⟩
  · show flushCount (((List.range N).map
      (fun i => SinkOp.setPixelColor i Color.COLOR_BLACK)) ++ [SinkOp.flush]) = 1
    rw [flushCount_append, flushCount_map_set]
    rfl
  · intro i hi
    show applyOps buf (((List.range N).map
      (fun i => SinkOp.setPixelColor i Color.COLOR_BLACK)) ++ [SinkOp.flush]) i
      = Color.COLOR_BLACK
    rw [applyOps_append]
    show applyOps buf ((List.range N).map fun i => SinkOp.setPixelColor i Color.COLOR_BLACK) i
      = Color.COLOR_BLACK
    rw [applyOps_rangeMap (fun _ => Color.COLOR_BLACK) buf i N, if_pos hi]

/-- C5: BrakingEvent::Draw while active with elapsed time at least 0.5s
(the steady phase) writes COLOR_RED to every usable pixel and performs
exactly one flush with no blocking delay. -/
theorem braking_steady_solid_red (N : ℕ) (t0 t1 t2 : ℚ)
    (h : BrakingEvent.BRAKE_STROBE_DURATION ≤ t0) :
    BrakingEvent.Draw true t0 t1 t2 N
      = ((List.range N).map (fun i => SinkOp.setPixelColor i Color.COLOR_RED))
        ++ [SinkOp.flush] ∧
    flushCount (BrakingEvent.Draw true t0 t1 t2 N) = 1 ∧
    delayCount (BrakingEvent.Draw true t0 t1 t2 N) = 0 ∧
    (∀ buf : ℕ → Color, ∀ i, i < N →
      applyOps buf (BrakingEvent.Draw true t0 t1 t2 N) i = Color.COLOR_RED) := by
  have htrace : BrakingEvent.Draw true t0 t1 t2 N
      = ((List.range N).map (fun i => SinkOp.setPixelColor i Color.COLOR_RED))
        ++ [SinkOp.flush] := by
    unfold BrakingEvent.Draw
    rw [if_neg (by simp), if_neg (not_lt.mpr h)]
  refine ⟨htrace, ?_, ?_, ?_⟩
  · rw [htrace, flushCount_append, flushCount_map_set]; rfl
  · rw [htrace, delayCount_append, delayCount_map_set]; rfl
  · intro buf i hi
    rw [htrace, applyOps_append]
    show applyOps buf ((List.range N).map fun i => SinkOp.setPixelColor i Color.COLOR_RED) i
      = Color.COLOR_RED
    rw [applyOps_rangeMap (fun _ => Color.COLOR_RED) buf i N, if_pos hi]

/-- Witness for braking_steady_solid_red at t0 = 1, N = 3. -/
theorem braking_steady_solid_red_witness :
    flushCount (BrakingEvent.Draw true 1 1 1 3) = 1 ∧
    delayCount (BrakingEvent.Draw true 1 1 1 3) = 0 ∧
    applyOps (fun _ => Color.COLOR_BLACK) (BrakingEvent.Draw true 1 1 1 3) 2
      = Color.COLOR_RED := by
  have h := braking_steady_solid_red 3 1 1 1
    (by norm_num [BrakingEvent.BRAKE_STROBE_DURATION])
  exact ⟨h.2.1, h.2.2.1, h.2.2.2 (fun _ => Color.COLOR_BLACK) 2 (by norm_num)⟩

/- Bounds on the BrakingEvent strobe-phase locals for non-negative elapsed
time. -/

theorem braking_pct_bounds (t : ℚ) (ht : 0 ≤ t) :
    1/10 ≤ BrakingEvent.pctComplete t ∧ BrakingEvent.pctComplete t ≤ 1 := by
  unfold BrakingEvent.pctComplete BrakingEvent.BLOOM_TIME BrakingEvent.BLOOM_START_SIZE
  refine ⟨le_min (by norm_num) ?_, min_le_left _ _⟩
  have h2 : 0 ≤ t / (1/2) := div_nonneg ht (by norm_num)
  linarith

theorem braking_unused_bounds (t : ℚ) (N : ℕ) (ht : 0 ≤ t) :
    0 ≤ BrakingEvent.unusedEachEnd t N ∧
    BrakingEvent.unusedEachEnd t N ≤ (N : ℚ) - BrakingEvent.unusedEachEnd t N := by
  obtain ⟨hlo, hhi⟩ := braking_pct_bounds t ht
  have hN : (0:ℚ) ≤ (N:ℚ) := Nat.cast_nonneg N
  have h1 : (1 - BrakingEvent.pctComplete t) * N ≤ 1 * N :=
    mul_le_mul_of_nonneg_right (by linarith) hN
  have h0 : 0 ≤ (1 - BrakingEvent.pctComplete t) * N :=
    mul_nonneg (by linarith) hN
  unfold BrakingEvent.unusedEachEnd
  constructor
  · positivity
  · rw [one_mul] at h1
    linarith

/-- Membership in the strobe-phase loop range: the loop writes exactly the
integer pixels from floor(unusedEachEnd) up to (exclusively) the exact
bound N - unusedEachEnd. -/
theorem mem_litRange_iff (t : ℚ) (N : ℕ) (ht : 0 ≤ t) (i : ℕ) :
    i ∈ BrakingEvent.litRange t N ↔
      (⌊BrakingEvent.unusedEachEnd t N⌋.toNat ≤ i ∧
        (i : ℚ) < (N : ℚ) - BrakingEvent.unusedEachEnd t N) := by
  obtain ⟨h0, hle⟩ := braking_unused_bounds t N ht
  have hfl : (⌊BrakingEvent.unusedEachEnd t N⌋ : ℚ) ≤ BrakingEvent.unusedEachEnd t N :=
    Int.floor_le _
  have hceil : ((N:ℚ) - BrakingEvent.unusedEachEnd t N)
      ≤ (⌈(N:ℚ) - BrakingEvent.unusedEachEnd t N⌉ : ℚ) := Int.le_ceil _
  have hfc : ⌊BrakingEvent.unusedEachEnd t N⌋ ≤ ⌈(N:ℚ) - BrakingEvent.unusedEachEnd t N⌉ := by
    have h : (⌊BrakingEvent.unusedEachEnd t N⌋ : ℚ)
        ≤ (⌈(N:ℚ) - BrakingEvent.unusedEachEnd t N⌉ : ℚ) := by linarith
    exact_mod_cast h
  have hlohi : ⌊BrakingEvent.unusedEachEnd t N⌋.toNat
      ≤ (⌈(N:ℚ) - BrakingEvent.unusedEachEnd t N⌉).toNat := Int.toNat_le_toNat hfc
  unfold BrakingEvent.litRange
  rw [List.mem_range'_1]
  constructor
  · rintro ⟨h1, h2⟩
    refine ⟨h1, ?_⟩
    have h2' : i < (⌈(N:ℚ) - BrakingEvent.unusedEachEnd t N⌉).toNat := by omega
    have h2z : (i : ℤ) < ⌈(N:ℚ) - BrakingEvent.unusedEachEnd t N⌉ := Int.lt_toNat.mp h2'
    have := Int.lt_ceil.mp h2z
    exact_mod_cast this
  · rintro ⟨h1, h2⟩
    refine ⟨h1, ?_⟩
    have h2z : (i : ℤ) < ⌈(N:ℚ) - BrakingEvent.unusedEachEnd t N⌉ :=
      Int.lt_ceil.mpr (by exact_mod_cast h2)
    have h2' : i < (⌈(N:ℚ) - BrakingEvent.unusedEachEnd t N⌉).toNat := Int.lt_toNat.mpr h2z
    omega

/-- C4 (amended): BrakingEvent::Draw while active with elapsed time below
0.5s performs exactly two flushes: it writes COLOR_RED to the pixels i with
floor(unusedEachEnd) at most i and i strictly below N - unusedEachEnd, with
unusedEachEnd computed from the first render-time sample t1 of
pct = min(1, elapsed/0.5 + 0.10), flushes, delays 30ms, then recomputes the
range at the later sample t2 and writes COLOR_DARK_RED to it, flushes and
delays 20ms.  (The loop index starts at the floor of the real margin
unusedEachEnd, not at the margin itself.) -/
theorem braking_strobe_two_flushes (N : ℕ) (t0 t1 t2 : ℚ)
    (h0 : 0 ≤ t0) (h01 : t0 ≤ t1) (h12 : t1 ≤ t2)
    (hlt : t0 < BrakingEvent.BRAKE_STROBE_DURATION) :
    BrakingEvent.Draw true t0 t1 t2 N
      = ((BrakingEvent.litRange t1 N).map (fun i => SinkOp.setPixelColor i Color.COLOR_RED))
        ++ [SinkOp.flush, SinkOp.delay 30]
        ++ ((BrakingEvent.litRange t2 N).map
            (fun i => SinkOp.setPixelColor i Color.COLOR_DARK_RED))
        ++ [SinkOp.flush, SinkOp.delay 20] ∧
    flushCount (BrakingEvent.Draw true t0 t1 t2 N) = 2 ∧
    (∀ i, i ∈ BrakingEvent.litRange t1 N ↔
      (⌊BrakingEvent.unusedEachEnd t1 N⌋.toNat ≤ i ∧
        (i : ℚ) < (N : ℚ) - BrakingEvent.unusedEachEnd t1 N)) ∧
    (∀ i, i ∈ BrakingEvent.litRange t2 N ↔
      (⌊BrakingEvent.unusedEachEnd t2 N⌋.toNat ≤ i ∧
        (i : ℚ) < (N : ℚ) - BrakingEvent.unusedEachEnd t2 N)) := by
  have htrace : BrakingEvent.Draw true t0 t1 t2 N
      = ((BrakingEvent.litRange t1 N).map (fun i => SinkOp.setPixelColor i Color.COLOR_RED))
        ++ [SinkOp.flush, SinkOp.delay 30]
        ++ ((BrakingEvent.litRange t2 N).map
            (fun i => SinkOp.setPixelColor i Color.COLOR_DARK_RED))
        ++ [SinkOp.flush, SinkOp.delay 20] := by
    unfold BrakingEvent.Draw
    rw [if_neg (by simp), if_pos hlt]
  refine ⟨htrace, ?_, fun i => mem_litRange_iff t1 N (le_trans h0 h01) i,
    fun i => mem_litRange_iff t2 N (le_trans (le_trans h0 h01) h12) i⟩
  rw [htrace, flushCount_append, flushCount_append, flushCount_append,
    flushCount_map_set, flushCount_map_set]
  rfl

/-- Witness for braking_strobe_two_flushes at N = 16, t0 = t1 = 0,
t2 = 0.03. -/
theorem braking_strobe_two_flushes_witness :
    flushCount (BrakingEvent.Draw true 0 0 (3/100) 16) = 2 ∧
    (8 ∈ BrakingEvent.litRange 0 16 ↔
      (⌊BrakingEvent.unusedEachEnd 0 16⌋.toNat ≤ 8 ∧
        (8 : ℚ) < (16 : ℚ) - BrakingEvent.unusedEachEnd 0 16)) := by
  have h := braking_strobe_two_flushes 16 0 0 (3/100) (by norm_num) (by norm_num)
    (by norm_num) (by norm_num [BrakingEvent.BRAKE_STROBE_DURATION])
  exact ⟨h.2.1, h.2.2.1 8⟩

/- Concrete evaluations of the strobe locals at N = 16 for the
counterexamples: at t = 0 the margin is 7.2 and the loop runs over pixels
7 and 8; at t = 0.03 the margin is 6.72 and the loop runs over 6..9. -/

theorem braking_unused_zero_16 : BrakingEvent.unusedEachEnd 0 16 = 36/5 := by
  unfold BrakingEvent.unusedEachEnd BrakingEvent.pctComplete BrakingEvent.BLOOM_TIME
    BrakingEvent.BLOOM_START_SIZE
  rw [min_eq_right (by norm_num)]
  norm_num

theorem braking_litRange_zero_16 : BrakingEvent.litRange 0 16 = [7, 8] := by
  unfold BrakingEvent.litRange
  rw [braking_unused_zero_16]
  have hcast : ((16 : ℕ) : ℚ) = 16 := by norm_num
  rw [hcast]
  have hf : ⌊(36/5 : ℚ)⌋ = 7 := by
    rw [Int.floor_eq_iff] <;> norm_num
  have hc : ⌈(16 : ℚ) - 36/5⌉ = 9 := by
    rw [Int.ceil_eq_iff] <;> norm_num
  rw [hf, hc]
  rfl

theorem braking_unused_003_16 : BrakingEvent.unusedEachEnd (3/100) 16 = 168/25 := by
  unfold BrakingEvent.unusedEachEnd BrakingEvent.pctComplete BrakingEvent.BLOOM_TIME
    BrakingEvent.BLOOM_START_SIZE
  rw [min_eq_right (by norm_num)]
  norm_num

theorem braking_litRange_003_16 : BrakingEvent.litRange (3/100) 16 = [6, 7, 8, 9] := by
  unfold BrakingEvent.litRange
  rw [braking_unused_003_16]
  have hcast : ((16 : ℕ) : ℚ) = 16 := by norm_num
  rw [hcast]
  have hf : ⌊(168/25 : ℚ)⌋ = 6 := by
    rw [Int.floor_eq_iff] <;> norm_num
  have hc : ⌈(16 : ℚ) - 168/25⌉ = 10 := by
    rw [Int.ceil_eq_iff] <;> norm_num
  rw [hf, hc]
  rfl

/-- Counterexample to C4 as stated: at N = 16, elapsed time 0, the margin
unusedEachEnd is 7.2, so the real interval from unusedEachEnd to
N - unusedEachEnd contains no integer below 8; yet the first strobe render
writes COLOR_RED to pixel 7, which lies strictly below unusedEachEnd. -/
theorem braking_strobe_range_floor_cex :
    SinkOp.setPixelColor 7 Color.COLOR_RED ∈ BrakingEvent.Draw true 0 0 (3/100) 16 ∧
    (7 : ℚ) < BrakingEvent.unusedEachEnd 0 16 := by
  constructor
  · unfold BrakingEvent.Draw
    rw [if_neg (by simp), if_pos (by norm_num [BrakingEvent.BRAKE_STROBE_DURATION])]
    rw [braking_litRange_zero_16]
    simp
  · rw [braking_unused_zero_16]
    norm_num

/-- C10 (amended): during the strobe phase a Draw() call writes only the
pixels of the two loop ranges (the bright-red range computed at sample t1
and the dark-red range recomputed at sample t2); every other pixel is not
written at all during the call — in particular it is never set to black —
and the sink buffer retains its previous color there.  (As each loop
starts at the floor of the real margin unusedEachEnd, the untouched margin
is the complement of the two floored ranges, not of the real interval.) -/
theorem braking_strobe_margin_untouched (N : ℕ) (t0 t1 t2 : ℚ)
    (hlt : t0 < BrakingEvent.BRAKE_STROBE_DURATION) (i : ℕ)
    (h1 : i ∉ BrakingEvent.litRange t1 N) (h2 : i ∉ BrakingEvent.litRange t2 N) :
    (∀ c, SinkOp.setPixelColor i c ∉ BrakingEvent.Draw true t0 t1 t2 N) ∧
    (∀ buf : ℕ → Color, applyOps buf (BrakingEvent.Draw true t0 t1 t2 N) i = buf i) := by
  have htrace : BrakingEvent.Draw true t0 t1 t2 N
      = ((BrakingEvent.litRange t1 N).map (fun j => SinkOp.setPixelColor j Color.COLOR_RED))
        ++ [SinkOp.flush, SinkOp.delay 30]
        ++ ((BrakingEvent.litRange t2 N).map
            (fun j => SinkOp.setPixelColor j Color.COLOR_DARK_RED))
        ++ [SinkOp.flush, SinkOp.delay 20] := by
    unfold BrakingEvent.Draw
    rw [if_neg (by simp), if_pos hlt]
  have hnot : ∀ c, SinkOp.setPixelColor i c ∉ BrakingEvent.Draw true t0 t1 t2 N := by
    intro c hc
    rw [htrace] at hc
    simp only [List.mem_append, List.mem_map, List.mem_cons, List.not_mem_nil] at hc
    rcases hc with ((⟨j, hj, hje⟩ | hfd) | ⟨j, hj, hje⟩) | hfd
    · cases hje
      exact h1 hj
    · simp at hfd
    · cases hje
      exact h2 hj
    · simp at hfd
  exact ⟨hnot, fun buf => applyOps_not_written i _ buf hnot⟩

/-- Witness for braking_strobe_margin_untouched at N = 16, t0 = t1 = 0,
t2 = 0.03, pixel 0 (outside both loop ranges). -/
theorem braking_strobe_margin_untouched_witness :
    SinkOp.setPixelColor 0 Color.COLOR_RED ∉ BrakingEvent.Draw true 0 0 (3/100) 16 ∧
    applyOps (fun _ => Color.COLOR_BLUE) (BrakingEvent.Draw true 0 0 (3/100) 16) 0
      = Color.COLOR_BLUE := by
  have h := braking_strobe_margin_untouched 16 0 0 (3/100)
    (by norm_num [BrakingEvent.BRAKE_STROBE_DURATION]) 0
    (by rw [braking_litRange_zero_16]; decide)
    (by rw [braking_litRange_003_16]; decide)
  exact ⟨h.1 Color.COLOR_RED, h.2 (fun _ => Color.COLOR_BLUE)⟩

/-- Counterexample to C10 as stated: at N = 16 a call entered at elapsed
time 0 has margin unusedEachEnd = 7.2, so pixel 6 lies in the claimed
untouched margin (6 is below unusedEachEnd); yet the dark-red render,
recomputed at the later sample t2 = 0.03 where the bar has grown, writes
COLOR_DARK_RED to pixel 6. -/
theorem braking_margin_pixel_written_cex :
    SinkOp.setPixelColor 6 Color.COLOR_DARK_RED ∈ BrakingEvent.Draw true 0 0 (3/100) 16 ∧
    (6 : ℚ) < BrakingEvent.unusedEachEnd 0 16 := by
  constructor
  · unfold BrakingEvent.Draw
    rw [if_neg (by simp), if_pos (by norm_num [BrakingEvent.BRAKE_STROBE_DURATION])]
    rw [braking_litRange_003_16]
    simp
  · rw [braking_unused_zero_16]
    norm_num

/-- C2 (amended): PoliceLightBar::Draw computes the section index as
pixelIndex / (usablePixelCount / 8) with no clamping; whenever the usable
pixel count is a positive multiple of 8 the index stays at most 7 (inside
the 8-entry sectionColor array) for every pixel below the count.  (For a
count that is not a multiple of 8 the unclamped index exceeds 7 on the
trailing pixels — see the counterexample.) -/
theorem police_section_index_bounded_when_div8 (N i : ℕ) (h8 : 8 ∣ N) (h0 : 0 < N)
    (hi : i < N) : PoliceLightBar.iSection N i ≤ 7 := by
  obtain ⟨k, rfl⟩ := h8
  have hk : 0 < k := by omega
  unfold PoliceLightBar.iSection
  have hdiv : 8 * k / 8 = k := by omega
  rw [hdiv]
  have hlt : i / k < 8 := (Nat.div_lt_iff_lt_mul hk).mpr (by omega)
  omega

/-- Witness for police_section_index_bounded_when_div8 at N = 16, i = 15. -/
theorem police_section_index_bounded_witness :
    PoliceLightBar.iSection 16 15 ≤ 7 :=
  police_section_index_bounded_when_div8 16 15 (by norm_num) (by norm_num) (by norm_num)

/-- Counterexample to C2 as stated: for usablePixelCount = 9 (not a
multiple of 8) and pixel 8 (a valid pixel, 8 < 9), the section index the
code uses is 8 / (9 / 8) = 8, which exceeds 7: the source applies no
clamping, so the read of the 8-entry sectionColor array is out of bounds
here. -/
theorem police_section_index_unclamped_cex :
    PoliceLightBar.iSection 9 8 = 8 ∧ 8 < 9 ∧ ¬ PoliceLightBar.iSection 9 8 ≤ 7 := by
  refine ⟨rfl, by norm_num, by decide⟩

/- Playback of a list of police table rows: flush count and the buffer
shown at each flush. -/

theorem police_rows_buffers (N : ℕ) :
    ∀ (rows : List PoliceLightBarState) (buf : ℕ → Color),
      flushCount ((rows.map (fun row => PoliceLightBar.rowFrame row N)).flatten)
        = rows.length ∧
      (∀ k, k < rows.length → ∀ i, i < N →
        ((buffersAtFlushes buf
            ((rows.map (fun row => PoliceLightBar.rowFrame row N)).flatten)).getD k buf) i
          = (rows.getD k ⟨[], 0⟩).sectionColor.getD (PoliceLightBar.iSection N i)
              Color.COLOR_BLACK) := by
  intro rows
  induction rows with
  | nil =>
    intro buf
    refine ⟨rfl, ?_⟩
    intro k hk
    simp at hk
  | cons row rest ih =>
    intro buf
    have hframe : PoliceLightBar.rowFrame row N
        = ((List.range N).map (fun i =>
            SinkOp.setPixelColor i
              (row.sectionColor.getD (PoliceLightBar.iSection N i) Color.COLOR_BLACK)))
          ++ [SinkOp.flush, SinkOp.delay row.duration] := rfl
    constructor
    · rw [List.map_cons, List.flatten_cons, flushCount_append, (ih buf).1, hframe,
        flushCount_append, flushCount_map_set,
        show flushCount [SinkOp.flush, SinkOp.delay row.duration] = 1 from rfl,
        List.length_cons]
      omega
    · intro k hk i hi
      rw [List.map_cons, List.flatten_cons, buffersAtFlushes_append]
      have hbf : buffersAtFlushes buf (PoliceLightBar.rowFrame row N)
          = [applyOps buf ((List.range N).map (fun i =>
              SinkOp.setPixelColor i
                (row.sectionColor.getD (PoliceLightBar.iSection N i) Color.COLOR_BLACK)))] := by
        rw [hframe, buffersAtFlushes_append, buffersAtFlushes_map_set]
        rfl
      rw [hbf]
      cases k with
      | zero =>
        show (applyOps buf ((List.range N).map (fun i =>
            SinkOp.setPixelColor i
              (row.sectionColor.getD (PoliceLightBar.iSection N i) Color.COLOR_BLACK)))) i
          = (row.sectionColor.getD (PoliceLightBar.iSection N i) Color.COLOR_BLACK)
        rw [applyOps_rangeMap
          (fun i => row.sectionColor.getD (PoliceLightBar.iSection N i) Color.COLOR_BLACK)
          buf i N, if_pos hi]
      | succ k =>
        have hk' : k < rest.length := by
          simpa using Nat.lt_of_succ_lt_succ hk
        show ((buffersAtFlushes (applyOps buf (PoliceLightBar.rowFrame row N))
            ((rest.map (fun row => PoliceLightBar.rowFrame row N)).flatten)).getD k buf) i
          = (rest.getD k ⟨[], 0⟩).sectionColor.getD (PoliceLightBar.iSection N i)
              Color.COLOR_BLACK
        have hlen : ((buffersAtFlushes (applyOps buf (PoliceLightBar.rowFrame row N))
            ((rest.map (fun row => PoliceLightBar.rowFrame row N)).flatten))).length
            = rest.length := by
          rw [length_buffersAtFlushes,
            (ih (applyOps buf (PoliceLightBar.rowFrame row N))).1]
        have hIH := (ih (applyOps buf (PoliceLightBar.rowFrame row N))).2 k hk' i hi
        rw [List.getD_eq_getElem?_getD] at hIH ⊢
        rwa [List.getElem?_eq_getElem (by omega)] at hIH ⊢
    
/-- C3: PoliceLightBar::Draw while active plays the whole 11-row table in
one call: it performs exactly 11 flushes, one per table row in table
order; before the k-th flush every usable pixel holds row k's color for
the pixel's section index; and the trace is the same for every elapsed
time since Begin() (the method never reads the clock), always starting
from row 0.  Stated for a usable pixel count that is a positive multiple
of 8, where the section lookups of the source are in bounds. -/
theorem police_draw_plays_full_table (N : ℕ) (t : ℚ) (h8 : 8 ∣ N) (h0 : 0 < N)
    (buf : ℕ → Color) :
    flushCount (PoliceLightBar.Draw true t N) = 11 ∧
    (∀ k, k < 11 → ∀ i, i < N →
      ((buffersAtFlushes buf (PoliceLightBar.Draw true t N)).getD k buf) i
        = (PoliceLightBar.PoliceBarStates1.getD k ⟨[], 0⟩).sectionColor.getD
            (PoliceLightBar.iSection N i) Color.COLOR_BLACK) ∧
    (∀ t' : ℚ, PoliceLightBar.Draw true t' N = PoliceLightBar.Draw true t N) := by
  have h := police_rows_buffers N PoliceLightBar.PoliceBarStates1 buf
  have hdraw : PoliceLightBar.Draw true t N
      = (PoliceLightBar.PoliceBarStates1.map
          (fun row => PoliceLightBar.rowFrame row N)).flatten := by
    unfold PoliceLightBar.Draw
    rw [if_neg (by simp)]
  have hlen : PoliceLightBar.PoliceBarStates1.length = 11 := rfl
  refine ⟨?_, ?_, fun t' => rfl⟩
  · rw [hdraw, h.1, hlen]
  · intro k hk i hi
    rw [hdraw]
    exact h.2 k (by rw [hlen]; exact hk) i hi

/-- Witness for police_draw_plays_full_table at N = 8, t = 0: 11 flushes,
and the frame at the first flush shows row 0's section 0 color
(COLOR_BLUE) on pixel 0. -/
theorem police_draw_plays_full_table_witness :
    flushCount (PoliceLightBar.Draw true 0 8) = 11 ∧
    ((buffersAtFlushes (fun _ => Color.COLOR_BLACK) (PoliceLightBar.Draw true 0 8)).getD 0
      (fun _ => Color.COLOR_BLACK)) 0 = Color.COLOR_BLUE := by
  have h := police_draw_plays_full_table 8 0 (by norm_num) (by norm_num)
    (fun _ => Color.COLOR_BLACK)
  refine ⟨h.1, ?_⟩
  have h2 := h.2.1 0 (by norm_num) 0 (by norm_num)
  rw [h2]
  rfl

/- SignalEvent helper lemmas. -/

theorem fmodQ_nonneg (x y : ℚ) (hy : 0 < y) : 0 ≤ fmodQ x y := by
  have h1 : (⌊x / y⌋ : ℚ) ≤ x / y := Int.floor_le _
  have h2 : y * (⌊x / y⌋ : ℚ) ≤ y * (x / y) := mul_le_mul_of_nonneg_left h1 hy.le
  have h3 : y * (x / y) = x := by field_simp
  unfold fmodQ
  linarith

/-- Factoring of SignalEvent::Draw: since the phase branch condition does
not depend on the loop index, the trace is the per-index SetTurnLED writes
of frameColor, followed by one flush. -/
theorem signal_draw_eq_frames (style : SignalEvent.SIGNAL_STYLE) (t : ℚ) (N M : ℕ) :
    SignalEvent.Draw style true t N M
      = ((List.range M).map (fun i =>
          SignalEvent.SetTurnLED style N i (SignalEvent.frameColor t M i))).flatten
        ++ [SinkOp.flush] := by
  unfold SignalEvent.Draw
  rw [if_neg (by simp)]
  by_cases h1 : fmodQ t SignalEvent.SequentialCycleTime > SignalEvent.SequentialOffStart
  · rw [if_pos h1]
    have hfc : ∀ i, SignalEvent.frameColor t M i = Color.COLOR_BLACK := by
      intro i
      unfold SignalEvent.frameColor
      rw [if_pos h1]
    simp only [hfc]
  · rw [if_neg h1]
    by_cases h2 : fmodQ t SignalEvent.SequentialCycleTime > SignalEvent.SequentialFadeStart
    · rw [if_pos h2]
      have hfc : ∀ i, SignalEvent.frameColor t M i
          = (if i < SignalEvent.fadePixelsLit t M then Color.COLOR_AMBER
             else Color.COLOR_BLACK) := by
        intro i
        unfold SignalEvent.frameColor
        rw [if_neg h1, if_pos h2]
      simp only [hfc]
    · rw [if_neg h2]
      by_cases h3 : fmodQ t SignalEvent.SequentialCycleTime > SignalEvent.SequentialHoldStart
      · rw [if_pos h3]
        have hfc : ∀ i, SignalEvent.frameColor t M i = Color.COLOR_AMBER := by
          intro i
          unfold SignalEvent.frameColor
          rw [if_neg h1, if_neg h2, if_pos h3]
        simp only [hfc]
      · rw [if_neg h3]
        have hfc : ∀ i, SignalEvent.frameColor t M i
            = (if i ≥ M - SignalEvent.bloomPixelsLit t M then Color.COLOR_AMBER
               else Color.COLOR_BLACK) := by
          intro i
          unfold SignalEvent.frameColor
          rw [if_neg h1, if_neg h2, if_neg h3]
        simp only [hfc]

theorem setTurnLED_hazard (N i : ℕ) (c : Color) :
    SignalEvent.SetTurnLED SignalEvent.SIGNAL_STYLE.HAZARD N i c
      = [SinkOp.setPixelColor i c, SinkOp.setPixelColor (N - 1 - i) c] := by
  simp [SignalEvent.SetTurnLED]

/-- Applying a symmetric chase body (each index j below M writes pixel j
and its mirror N - 1 - j with the same color f j) leaves both pixels of
every pair holding that color, when the two end ranges do not overlap. -/
theorem applyOps_hazard_pairs (f : ℕ → Color) (N : ℕ) :
    ∀ (M : ℕ), 2 * M ≤ N → ∀ (buf : ℕ → Color) (i : ℕ), i < M →
      applyOps buf (((List.range M).map (fun j =>
        [SinkOp.setPixelColor j (f j), SinkOp.setPixelColor (N - 1 - j) (f j)])).flatten) i
        = f i ∧
      applyOps buf (((List.range M).map (fun j =>
        [SinkOp.setPixelColor j (f j), SinkOp.setPixelColor (N - 1 - j) (f j)])).flatten)
        (N - 1 - i) = f i := by
  intro M
  induction M with
  | zero =>
    intro h buf i hi
    omega
  | succ M ih =>
    intro h buf i hi
    rw [List.range_succ, List.map_append, List.flatten_append, applyOps_append]
    simp only [List.map_cons, List.map_nil, List.flatten_cons, List.flatten_nil,
      List.append_nil]
    have hap : ∀ (j : ℕ),
        applyOps (applyOps buf (((List.range M).map (fun j =>
          [SinkOp.setPixelColor j (f j), SinkOp.setPixelColor (N - 1 - j) (f j)])).flatten))
          [SinkOp.setPixelColor M (f M), SinkOp.setPixelColor (N - 1 - M) (f M)] j
        = if j = N - 1 - M then f M
          else if j = M then f M
          else applyOps buf (((List.range M).map (fun j =>
            [SinkOp.setPixelColor j (f j), SinkOp.setPixelColor (N - 1 - j) (f j)])).flatten) j :=
      fun j => rfl
    by_cases hiM : i = M
    · subst hiM
      constructor
      · rw [hap, if_neg (by omega), if_pos rfl]
      · rw [hap, if_pos rfl]
    · have hi' : i < M := by omega
      have hIH := ih (by omega) buf i hi'
      constructor
      · rw [hap, if_neg (by omega), if_neg (by omega)]
        exact hIH.1
      · rw [hap, if_neg (by omega), if_neg (by omega)]
        exact hIH.2

/-- C8: for a SignalEvent with style HAZARD, every Draw() call writes each
signal index i below M as a pair — the same color to pixel i from the
strip start and to the mirrored pixel N - 1 - i from the strip end — and
so the resulting buffer is identical on the two ends at every elapsed
time.  Stated for configurations where the two signal ranges do not
overlap (2M at most N, as the configuration contract requires). -/
theorem signal_hazard_mirrors (t : ℚ) (N M : ℕ) (hMN : 2 * M ≤ N) :
    SignalEvent.Draw SignalEvent.SIGNAL_STYLE.HAZARD true t N M
      = ((List.range M).map (fun i =>
          [SinkOp.setPixelColor i (SignalEvent.frameColor t M i),
           SinkOp.setPixelColor (N - 1 - i) (SignalEvent.frameColor t M i)])).flatten
        ++ [SinkOp.flush] ∧
    ∀ (buf : ℕ → Color) (i : ℕ), i < M →
      applyOps buf (SignalEvent.Draw SignalEvent.SIGNAL_STYLE.HAZARD true t N M) i
        = SignalEvent.frameColor t M i ∧
      applyOps buf (SignalEvent.Draw SignalEvent.SIGNAL_STYLE.HAZARD true t N M) (N - 1 - i)
        = SignalEvent.frameColor t M i := by
  have htrace : SignalEvent.Draw SignalEvent.SIGNAL_STYLE.HAZARD true t N M
      = ((List.range M).map (fun i =>
          [SinkOp.setPixelColor i (SignalEvent.frameColor t M i),
           SinkOp.setPixelColor (N - 1 - i) (SignalEvent.frameColor t M i)])).flatten
        ++ [SinkOp.flush] := by
    rw [signal_draw_eq_frames]
    simp only [setTurnLED_hazard]
  refine ⟨htrace, ?_⟩
  intro buf i hi
  rw [htrace, applyOps_append]
  have happ : ∀ (B : ℕ → Color), applyOps B [SinkOp.flush] = B := fun B => rfl
  rw [happ]
  exact applyOps_hazard_pairs (SignalEvent.frameColor t M) N M hMN buf i hi

/-- Witness for signal_hazard_mirrors at t = 0, N = 4, M = 2: both pixel 0
and its mirror pixel 3 end up black (bloom phase with zero pixels lit). -/
theorem signal_hazard_mirrors_witness :
    applyOps (fun _ => Color.COLOR_AMBER)
      (SignalEvent.Draw SignalEvent.SIGNAL_STYLE.HAZARD true 0 4 2) 0
      = Color.COLOR_BLACK ∧
    applyOps (fun _ => Color.COLOR_AMBER)
      (SignalEvent.Draw SignalEvent.SIGNAL_STYLE.HAZARD true 0 4 2) 3
      = Color.COLOR_BLACK := by
  have hcp : fmodQ 0 SignalEvent.SequentialCycleTime = 0 := by
    unfold fmodQ
    rw [zero_div, Int.floor_zero]
    simp
  have hbl : SignalEvent.bloomPixelsLit 0 2 = 0 := by
    unfold SignalEvent.bloomPixelsLit
    rw [hcp]
    simp
  have hfc : SignalEvent.frameColor 0 2 0 = Color.COLOR_BLACK := by
    unfold SignalEvent.frameColor
    rw [hcp, hbl]
    rw [if_neg (by norm_num [SignalEvent.SequentialOffStart, SignalEvent.SequentialFadeStart,
        SignalEvent.SequentialHoldStart, SignalEvent.SequentialBloomStart,
        SignalEvent.SequentialBloomTime, SignalEvent.SequentialHoldTime,
        SignalEvent.SequentialFadeTime]),
      if_neg (by norm_num [SignalEvent.SequentialFadeStart, SignalEvent.SequentialHoldStart,
        SignalEvent.SequentialBloomStart, SignalEvent.SequentialBloomTime,
        SignalEvent.SequentialHoldTime]),
      if_neg (by norm_num [SignalEvent.SequentialHoldStart, SignalEvent.SequentialBloomStart,
        SignalEvent.SequentialBloomTime]),
      if_neg (by norm_num)]
  have h := (signal_hazard_mirrors 0 4 2 (by norm_num)).2 (fun _ => Color.COLOR_AMBER) 0
    (by norm_num)
  exact ⟨h.1.trans hfc, h.2.trans hfc⟩

/-- C9: whenever the bloom branch of SignalEvent::Draw is reached (the
cycle position fails all three later-phase guards), the asserted predicate
cyclePosition at most SequentialBloomTime holds (and the cycle position is
non-negative), so the assertion never fails for any non-negative elapsed
time. -/
theorem signal_bloom_assert_never_fails (t : ℚ) (h0 : 0 ≤ t)
    (hoff : ¬ fmodQ t SignalEvent.SequentialCycleTime > SignalEvent.SequentialOffStart)
    (hfade : ¬ fmodQ t SignalEvent.SequentialCycleTime > SignalEvent.SequentialFadeStart)
    (hhold : ¬ fmodQ t SignalEvent.SequentialCycleTime > SignalEvent.SequentialHoldStart) :
    0 ≤ fmodQ t SignalEvent.SequentialCycleTime ∧
    fmodQ t SignalEvent.SequentialCycleTime ≤ SignalEvent.SequentialBloomTime := by
  constructor
  · exact fmodQ_nonneg t _ (by norm_num [SignalEvent.SequentialCycleTime,
      SignalEvent.SequentialOffStart, SignalEvent.SequentialFadeStart,
      SignalEvent.SequentialHoldStart, SignalEvent.SequentialBloomStart,
      SignalEvent.SequentialBloomTime, SignalEvent.SequentialHoldTime,
      SignalEvent.SequentialFadeTime, SignalEvent.SequentialOffTime])
  · push_neg at hhold
    have he : SignalEvent.SequentialHoldStart = SignalEvent.SequentialBloomTime := by
      norm_num [SignalEvent.SequentialHoldStart, SignalEvent.SequentialBloomStart,
        SignalEvent.SequentialBloomTime]
    rw [← he]
    exact hhold

/-- Witness for signal_bloom_assert_never_fails at t = 1/4 (cycle position
1/4, inside the bloom phase). -/
theorem signal_bloom_assert_never_fails_witness :
    0 ≤ fmodQ (1/4) SignalEvent.SequentialCycleTime ∧
    fmodQ (1/4) SignalEvent.SequentialCycleTime ≤ SignalEvent.SequentialBloomTime := by
  have hc : SignalEvent.SequentialCycleTime = 9/8 := by
    norm_num [SignalEvent.SequentialCycleTime, SignalEvent.SequentialOffStart,
      SignalEvent.SequentialFadeStart, SignalEvent.SequentialHoldStart,
      SignalEvent.SequentialBloomStart, SignalEvent.SequentialBloomTime,
      SignalEvent.SequentialHoldTime, SignalEvent.SequentialFadeTime,
      SignalEvent.SequentialOffTime]
  have hm : fmodQ (1/4) SignalEvent.SequentialCycleTime = 1/4 := by
    unfold fmodQ
    rw [hc]
    have hz : ⌊(1/4 : ℚ) / (9/8)⌋ = 0 := by
      rw [Int.floor_eq_iff] <;> norm_num
    rw [hz]
    norm_num
  refine signal_bloom_assert_never_fails (1/4) (by norm_num) ?_ ?_ ?_
  · rw [hm]
    norm_num [SignalEvent.SequentialOffStart, SignalEvent.SequentialFadeStart,
      SignalEvent.SequentialHoldStart, SignalEvent.SequentialBloomStart,
      SignalEvent.SequentialBloomTime, SignalEvent.SequentialHoldTime,
      SignalEvent.SequentialFadeTime]
  · rw [hm]
    norm_num [SignalEvent.SequentialFadeStart, SignalEvent.SequentialHoldStart,
      SignalEvent.SequentialBloomStart, SignalEvent.SequentialBloomTime,
      SignalEvent.SequentialHoldTime]
  · rw [hm]
    norm_num [SignalEvent.SequentialHoldStart, SignalEvent.SequentialBloomStart,
      SignalEvent.SequentialBloomTime]
